import Mathlib

/-!
Shallow embedding of the grube.fund feed service (Go sources
`internal/feed/generator.go` and `backend/api/internal/feeds/handler.go`)
and proofs about the claims of its specification.

Modelling conventions:
* Go `float64` values are modelled as exact rationals (`GoFloat` below);
  the claims under scrutiny only depend on parse success, on comparison
  with zero and on two-decimal rendering, where the exact-rational model
  agrees with IEEE doubles on all inputs the claims mention.
* URLs are modelled at the `url.Values` level: a query is a list of
  key/value pairs in insertion order (net/url's `Encode` percent-encoding
  and key sorting do not change which parameters are carried).
* The upstream HTTP exchange of one loop iteration is one
  `UpstreamResult`: a transport failure (covering `client.Do`,
  `io.ReadAll` and `Body.Close` errors) or a status code together with
  how the body would fare under `json.Unmarshal`.
* `rand.Intn n` results are modelled as parameters constrained to `< n`.
-/

set_option maxRecDepth 8192

namespace GrubeFund

/-! ## Go standard-library helpers used by the sources -/

/-- Core of Go `strings.Split` for a one-character separator: split
around every instance of the separator; the empty input yields the
one-element list holding the empty slice. -/
def splitChar (sep : Char) : List Char → List (List Char)
  | [] => [[]]
  | c :: cs =>
    if c = sep then [] :: splitChar sep cs
    else
      match splitChar sep cs with
      | [] => [[c]]
      | g :: gs => (c :: g) :: gs

/-- Go `strings.Split(s, sep)` for a one-character separator (every call
site of the sources passes `","`); in particular
`stringsSplit "" ',' = [""]`. -/
def stringsSplit (s : String) (sep : Char) : List String :=
  (splitChar sep s.data).map String.mk

/-- Go `strings.Join`. -/
def stringsJoin (elems : List String) (sep : String) : String :=
  String.intercalate sep elems

/-! ## handler.go: constants -/

def feedCacheMaxAge : Nat := 60 * 60

/-- `randomMaxAge` from handler.go.  The two draws of the process-wide
RNG are passed in: `off` models `rand.Intn(15*60 + 1)` (so `off ≤ 900`)
and `coin` models `rand.Intn(2)`. -/
def randomMaxAge (off coin : Nat) : Nat :=
  if coin = 1 then feedCacheMaxAge - off else feedCacheMaxAge + off

/-! ## handler.go: query parameter parsing -/

/-- `parseRequiredBrands` from handler.go: an empty value is a 400 error
with message `"brands param is required"`. -/
def parseRequiredBrands (brands : String) : Except String (List String) :=
  if brands = "" then .error "brands param is required"
  else .ok (stringsSplit brands ',')

/-- `parseRequiredCategoryIDs` from handler.go. -/
def parseRequiredCategoryIDs (categoryIDs : String) : Except String (List String) :=
  if categoryIDs = "" then .error "categorieIds param is required"
  else .ok (stringsSplit categoryIDs ',')

/-- `parseOptionalOutletIDs` from handler.go: unconditional
`strings.Split(outletIDs, ",")`. -/
def parseOptionalOutletIDs (outletIDs : String) : List String :=
  stringsSplit outletIDs ','

/-- The format check of `HandleGet`: the negation of
`format != formatRSS && format != formatAtom && format != formatJSON`. -/
def validFormat (format : String) : Bool :=
  format == "rss" || format == "atom" || format == "json"

/-! ## handler.go: HandleGet -/

/-- One incoming request, as the handler observes it.  Each field is the
result of `c.QueryParam`/`c.Param`; a missing query parameter is
indistinguishable from an empty one and both surface as `""`. -/
structure FeedRequest where
  format : String
  brands : String
  categorieIds : String
  outletIds : String
  text : String

inductive HandleResponse
  /-- `echo.NewHTTPError(status, message)` on the validation path. -/
  | clientError (status : Nat) (message : String)
  /-- `echo.NewHTTPError(http.StatusInternalServerError)` wrapping an
  internal error. -/
  | serverError (status : Nat)
  /-- `c.String(http.StatusOK, content)` together with the Content-Type
  and Cache-Control headers set just before it. -/
  | success (status : Nat) (contentType : String) (cacheControl : String)
  deriving DecidableEq

/-- Result of one `HandleGet` run, instrumented with the argument tuple
of the (at most one) `generator.BuildFeed` call so that "the generator
is never invoked" is expressible. -/
structure HandleOutcome where
  response : HandleResponse
  generatorCall : Option (List String × List String × List String × String)

def contentTypeFor (format : String) : String :=
  if format = "rss" then "application/xml; charset=UTF-8"
  else if format = "atom" then "application/xml"
  else "application/json"

/-- `Handler.HandleGet` from handler.go.  The generator is abstracted to
the function `gen` (the `Generator` interface); `r1` and `r2` are the
RNG draws consumed by `randomMaxAge`.  Feed-URL construction and feed
serialization are external collaborators (net/url, gorilla/feeds) that
cannot fail on the values this model produces, so the success path goes
straight to the headers and the 200 response. -/
def handleGet
    (gen : List String → List String → List String → String → Except Unit Unit)
    (req : FeedRequest) (r1 r2 : Nat) : HandleOutcome :=
  if validFormat req.format then
    match parseRequiredBrands req.brands with
    | .error msg => ⟨.clientError 400 msg, none⟩
    | .ok brands =>
      match parseRequiredCategoryIDs req.categorieIds with
      | .error msg => ⟨.clientError 400 msg, none⟩
      | .ok categoryIDs =>
        let outletIDs := parseOptionalOutletIDs req.outletIds
        let keyword := req.text
        match gen brands categoryIDs outletIDs keyword with
        | .error _ => ⟨.serverError 500, some (brands, categoryIDs, outletIDs, keyword)⟩
        | .ok _ =>
          ⟨.success 200 (contentTypeFor req.format)
              ("max-age=" ++ toString (randomMaxAge r1 r2) ++ ", must-revalidate"),
            some (brands, categoryIDs, outletIDs, keyword)⟩
  else ⟨.clientError 400 "Invalid format", none⟩

/-! ## strconv.ParseFloat

`posting.ToFeedItem` calls `strconv.ParseFloat(p.Price, 64)` and fails on
any non-nil error.  The embedding below follows strconv's atof.go:
`special` (signed infinities, `nan`), `readFloat` (optional sign, decimal
or `0x` hex mantissa with at most one dot, underscores, optional
`e`/`p` exponent with the `e < 10000` cap), the `underscoreOK`
validation, and the full-length requirement of the `ParseFloat` wrapper.
Successful finite parses carry the exact rational value of the literal
(Go rounds it to the nearest double; no claim depends on that rounding).
`ParseFloat` reports an error exactly for invalid literals and for
finite literals whose magnitude rounds beyond the largest double, i.e.
`|v| ≥ 2^1024 - 2^970`; both cases are `none` here.  Underflow to zero
returns a value and a nil error in Go, hence is `some` here. -/

inductive GoFloat
  | finite (v : ℚ)
  | inf (neg : Bool)
  | nan
  deriving DecidableEq

def lowerC (c : Char) : Char :=
  if 'A' ≤ c ∧ c ≤ 'Z' then Char.ofNat (c.toNat + 32) else c

def isDigitC (c : Char) : Bool := '0' ≤ c && c ≤ '9'

def isHexLetterC (c : Char) : Bool := 'a' ≤ lowerC c && lowerC c ≤ 'f'

def digitVal (c : Char) : Nat :=
  if isDigitC c then c.toNat - '0'.toNat else (lowerC c).toNat - 'a'.toNat + 10

/-- Case-insensitive comparison of `s` against an all-lowercase word. -/
def eqIgnoreCase (s t : List Char) : Bool := s.map lowerC == t

/-- strconv's `special`, combined with the wrapper's requirement that the
whole input be consumed: exactly `[sign]("inf"|"infinity")` or an
unsigned `"nan"`, case-insensitively. -/
def specialFull (cs : List Char) : Option GoFloat :=
  match cs with
  | [] => none
  | c :: rest =>
    if c = '+' then
      if eqIgnoreCase rest "inf".data || eqIgnoreCase rest "infinity".data then
        some (.inf false)
      else none
    else if c = '-' then
      if eqIgnoreCase rest "inf".data || eqIgnoreCase rest "infinity".data then
        some (.inf true)
      else none
    else if eqIgnoreCase cs "inf".data || eqIgnoreCase cs "infinity".data then
      some (.inf false)
    else if eqIgnoreCase cs "nan".data then some .nan
    else none

/-- The mantissa scan of `readFloat`: consume digits (hex digits in hex
mode), underscores, and at most one dot; stop at anything else (the
second dot included).  Returns the consumed span and the rest. -/
def takeMant (hex : Bool) (sawdot : Bool) : List Char → List Char × List Char
  | [] => ([], [])
  | c :: cs =>
    if c = '_' || isDigitC c || (hex && isHexLetterC c) then
      let r := takeMant hex sawdot cs
      (c :: r.1, r.2)
    else if c = '.' then
      if sawdot then ([], c :: cs)
      else
        let r := takeMant hex true cs
        (c :: r.1, r.2)
    else ([], c :: cs)

/-- Split a scanned mantissa span at its dot (if any) and drop the
underscores, leaving the integral and fractional digit lists. -/
def splitMant (mant : List Char) : List Char × List Char :=
  let intPart := mant.takeWhile (· ≠ '.')
  let fracPart := (mant.dropWhile (· ≠ '.')).drop 1
  (intPart.filter (· ≠ '_'), fracPart.filter (· ≠ '_'))

def digitsToNat (base : Nat) (ds : List Char) : Nat :=
  ds.foldl (fun acc c => acc * base + digitVal c) 0

/-- The exponent scan: after the `e`/`p` an optional sign, then at least
one decimal digit; digits and underscores until the end of the input
(anything else would be unconsumed trailing input, a syntax error).
Digits accumulate with strconv's `e < 10000` cap. -/
def parseExpDigits (r : List Char) : Option ℤ :=
  let sgn : ℤ × List Char :=
    match r with
    | '+' :: t => (1, t)
    | '-' :: t => (-1, t)
    | t => (1, t)
  match sgn.2 with
  | [] => none
  | c :: _ =>
    if isDigitC c && sgn.2.all (fun d => isDigitC d || d = '_') then
      let e := (sgn.2.filter (fun d => isDigitC d)).foldl
        (fun e d => if e < 10000 then e * 10 + digitVal d else e) 0
      some (sgn.1 * (e : ℤ))
    else none

def qpow10 (e : ℤ) : ℚ :=
  if 0 ≤ e then (10 : ℚ) ^ e.toNat else ((10 : ℚ) ^ (-e).toNat)⁻¹

def qpow2 (e : ℤ) : ℚ :=
  if 0 ≤ e then (2 : ℚ) ^ e.toNat else ((2 : ℚ) ^ (-e).toNat)⁻¹

/-- strconv's `underscoreOK`, verbatim: underscores may sit only between
digits (the base prefix counting as a digit). -/
def underscoreOKCore (hex : Bool) (saw : Char) : List Char → Bool
  | [] => saw ≠ '_'
  | c :: cs =>
    if isDigitC c || (hex && isHexLetterC c) then underscoreOKCore hex '0' cs
    else if c = '_' then saw = '0' && underscoreOKCore hex '_' cs
    else if saw = '_' then false
    else underscoreOKCore hex '!' cs

def underscoreOK (cs : List Char) : Bool :=
  let body := match cs with
    | c :: rest => if c = '-' || c = '+' then rest else cs
    | [] => cs
  match body with
  | '0' :: b :: rest =>
    if lowerC b = 'b' || lowerC b = 'o' || lowerC b = 'x' then
      underscoreOKCore (lowerC b = 'x') '0' rest
    else underscoreOKCore false '^' body
  | _ => underscoreOKCore false '^' body

/-- Decimal branch of `readFloat` on the input after the sign: mantissa
with at least one digit, then nothing or a complete `e` exponent. -/
def decCore (body : List Char) : Option ℚ :=
  let m := takeMant false false body
  let d := splitMant m.1
  if d.1.length + d.2.length = 0 then none
  else
    match m.2 with
    | [] => some ((digitsToNat 10 (d.1 ++ d.2) : ℚ) * qpow10 (0 - d.2.length))
    | c :: r =>
      if lowerC c = 'e' then
        match parseExpDigits r with
        | none => none
        | some e => some ((digitsToNat 10 (d.1 ++ d.2) : ℚ) * qpow10 (e - d.2.length))
      else none

/-- Hex branch of `readFloat` on the input after the sign and the `0x`
prefix: hex mantissa with at least one digit and a mandatory binary
exponent `p`. -/
def hexCore (body : List Char) : Option ℚ :=
  let m := takeMant true false body
  let d := splitMant m.1
  if d.1.length + d.2.length = 0 then none
  else
    match m.2 with
    | [] => none
    | c :: r =>
      if lowerC c = 'p' then
        match parseExpDigits r with
        | none => none
        | some e => some ((digitsToNat 16 (d.1 ++ d.2) : ℚ) * qpow2 (e - 4 * d.2.length))
      else none

/-- `readFloat` combined with the wrapper's full-length requirement:
optional sign, hex or decimal mantissa/exponent, and the underscore
placement check when an underscore occurs. -/
def readFloatFull (cs : List Char) : Option ℚ :=
  let sgn : Bool × List Char :=
    match cs with
    | '+' :: t => (false, t)
    | '-' :: t => (true, t)
    | t => (false, t)
  let mag : Option ℚ :=
    match sgn.2 with
    | '0' :: x :: rest => if lowerC x = 'x' then hexCore rest else decCore sgn.2
    | _ => decCore sgn.2
  match mag with
  | none => none
  | some v =>
    if cs.contains '_' && !underscoreOK cs then none
    else some (if sgn.1 then -v else v)

/-- Half an ulp above the largest finite double, `2^1024 - 2^970`:
finite literals of at least this magnitude round to infinity and make
`ParseFloat` report `ErrRange`. -/
def overflowBound : ℚ := mkRat (Int.ofNat (2 ^ 1024 - 2 ^ 970)) 1

/-- Absolute value of a rational through the sign of its (normalized)
numerator. -/
def ratAbs (v : ℚ) : ℚ := if v.num < 0 then Rat.neg v else v

/-- `strconv.ParseFloat(s, 64)` with a non-nil error collapsed to
`none`; the success condition of the last line is `|v| < overflowBound`. -/
def parseFloatGo (s : String) : Option GoFloat :=
  let cs := s.data
  match specialFull cs with
  | some f => some f
  | none =>
    match readFloatFull cs with
    | none => none
    | some v => if (ratAbs v).blt overflowBound then some (.finite v) else none

/-! ## German number formatting

`formatItemTitle` renders floats through
`message.NewPrinter(language.German).Sprintf("%.2f...")`: two fixed
decimals (strconv's fixed-precision rounding, ties to even), a decimal
comma, a dot as thousands separator, and a leading ASCII minus for
negative values. -/

/-- Nearest integer, ties to the even integer (the rounding strconv's
fixed-precision formatting applies to the exact value). -/
def roundHalfEven (x : ℚ) : ℤ :=
  let f := ⌊x⌋
  let r := x - (f : ℚ)
  if r < 1 / 2 then f
  else if 1 / 2 < r then f + 1
  else if f % 2 = 0 then f else f + 1

/-- Group a digit list (most significant first) with a `.` between every
block of three, counted from the right; the recursion works on the
reversed list. -/
def group3 : List Char → List (List Char)
  | [] => []
  | [a] => [[a]]
  | [a, b] => [[a, b]]
  | a :: b :: c :: rest => [a, b, c] :: group3 rest

def groupThousands (ds : List Char) : List Char :=
  List.intercalate ['.'] (((group3 ds.reverse).map List.reverse).reverse)

def twoDigitFrac (n : Nat) : String :=
  (if n < 10 then "0" else "") ++ toString n

/-- `%.2f` under the German locale printer, on an exact rational. -/
def germanFixed2 (q : ℚ) : String :=
  let a := if q < 0 then -q else q
  let m := (roundHalfEven (a * 100)).toNat
  (if q < 0 then "-" else "")
    ++ String.mk (groupThousands (toString (m / 100)).data)
    ++ "," ++ twoDigitFrac (m % 100)

/-- `%.2f` on a parsed float; infinities and NaN never reach the
formatter on the inputs any claim mentions, their rendering is nominal. -/
def formatF2 : GoFloat → String
  | .finite q => germanFixed2 q
  | .inf b => (if b then "-∞" else "∞")
  | .nan => "NaN"

/-- Go `shippingCost == 0.0` on the modelled float. -/
def isZeroF : GoFloat → Bool
  | .finite q => q == 0
  | _ => false

/-- `formatItemTitle` from generator.go. -/
def formatItemTitle (productName : String) (price shippingCost : GoFloat) : String :=
  let shippingCostStr :=
    if isZeroF shippingCost then "kostenlos" else formatF2 shippingCost ++ "€"
  productName ++ " - " ++ formatF2 price ++ "€ (Versand: " ++ shippingCostStr ++ ")"

/-- `formatFeedSubtitle` from generator.go. -/
def formatFeedSubtitle (brands categoryIDs : List String) (keyword : String) : String :=
  let subtitle := "Marken: " ++ stringsJoin brands ", "
    ++ "/Kategorien: " ++ stringsJoin categoryIDs ", "
  if keyword ≠ "" then subtitle ++ "/Stichwort: " ++ keyword else subtitle

/-! ## generator.go: data model and transform -/

structure Brand where
  id : Int
  name : String
  deriving DecidableEq

structure Outlet where
  id : Int
  name : String
  deriving DecidableEq

/-- One upstream listing record (`posting` in generator.go). The
`shippingCost` field arrives as a JSON number, hence is always a finite
float. -/
structure Posting where
  id : String
  text : String
  productName : String
  productID : Int
  categoryID : String
  price : String
  shippingCost : GoFloat
  brand : Brand
  outlet : Outlet
  deriving DecidableEq

/-- A query in `url.Values` form: the key/value pairs in the order they
were added. `Encode` percent-encodes and sorts them into the final URL
string without changing which parameters are carried. -/
abbrev QueryPairs := List (String × String)

/-- `posting.BuildWebURL` from generator.go, at the query level: the
already-parsed storefront base URL (its own query in `baseQuery`)
extended by four `q.Add` calls. `strconv.Itoa` is `Int.repr`. The
deployed base URIs parse, so the `url.Parse` error path is unreachable
and the function is total here. -/
def buildWebURL (baseQuery : QueryPairs) (p : Posting) : QueryPairs :=
  baseQuery ++
    [("outletIds", toString p.outlet.id),
     ("brands", p.brand.name),
     ("categorieIds", p.categoryID),
     ("text", toString p.productID)]

/-- `feeds.Item` restricted to the fields generator.go sets; the link is
the deep-link query produced by `BuildWebURL`. -/
structure FeedItem where
  title : String
  link : QueryPairs
  id : String
  content : String
  deriving DecidableEq

/-- `posting.ToFeedItem` from generator.go: link construction (total,
see `buildWebURL`), then `strconv.ParseFloat` on the price with any
error propagated, then the item literal. -/
def toFeedItem (baseQuery : QueryPairs) (p : Posting) : Option FeedItem :=
  let webURL := buildWebURL baseQuery p
  match parseFloatGo p.price with
  | none => none
  | some price =>
    some { title := formatItemTitle p.productName price p.shippingCost
           link := webURL
           id := p.id
           content := p.text }

/-- The item loop of `Generator.BuildFeed`: transform every posting,
aborting the whole request on the first failure. -/
def toFeedItems (baseQuery : QueryPairs) : List Posting → Option (List FeedItem)
  | [] => some []
  | p :: ps =>
    match toFeedItem baseQuery p with
    | none => none
    | some item => (toFeedItems baseQuery ps).map (item :: ·)

/-! ## generator.go: fetch loop -/

def perPage : Nat := 100

def userAgent : String :=
  "Mozilla/5.0 (X11; Linux x86_64) AppleWebKit/537.36 (KHTML, like Gecko) Chrome/114.0.0.0 Safari/537.36"

/-- `Generator.buildRequest` from generator.go, at the query level (the
deployed API base URIs carry no query string of their own, see main.go). -/
structure APIRequest where
  query : QueryPairs
  userAgent : String
  deriving DecidableEq

def buildRequest (limit offset : Nat) (brands categoryIDs : List String)
    (keyword : String) : APIRequest :=
  { query := [("limit", toString limit),
              ("offset", toString offset),
              ("brands", stringsJoin brands ","),
              ("categorieIds", stringsJoin categoryIDs ","),
              ("text", keyword)]
    userAgent := userAgent }

/-- How `json.Unmarshal` fares on the body of a 200 response. -/
inductive PageBody
  | malformed
  | parsed (postings : List Posting) (hasMore : Bool)

/-- One iteration's upstream exchange: `transportError` covers a failing
`client.Do`, `io.ReadAll` or `Body.Close`; otherwise a status code and a
body. -/
inductive UpstreamResult
  | transportError
  | response (status : Nat) (body : PageBody)

inductive FetchError
  | transport
  | unexpectedStatus (code : Nat)
  | badJSON
  /-- Model artifact: the loop still wants a page but the modelled
  response sequence is exhausted. -/
  | outOfResponses
  deriving DecidableEq

/-- `Generator.fetch` from generator.go, driven by the sequence of
upstream exchanges and instrumented with the trace of requests built.
Control flow per iteration: build the request, perform the exchange
(transport failures abort), then `status != 200`: a 422 returns the
accumulated postings with nil error and anything else is fatal; on 200,
unmarshal (abort on bad JSON), append the page, adopt its
`morePostingsAvailable` flag and advance the offset by `perPage`. -/
def fetchLoop (brands categoryIDs : List String) (keyword : String) :
    List UpstreamResult → Nat → List Posting →
      List APIRequest × Except FetchError (List Posting)
  | [], offset, _acc =>
    ([buildRequest perPage offset brands categoryIDs keyword], .error .outOfResponses)
  | r :: rs, offset, acc =>
    let req := buildRequest perPage offset brands categoryIDs keyword
    match r with
    | .transportError => ([req], .error .transport)
    | .response status body =>
      if status = 200 then
        match body with
        | .malformed => ([req], .error .badJSON)
        | .parsed ps more =>
          if more then
            let next := fetchLoop brands categoryIDs keyword rs (offset + perPage) (acc ++ ps)
            (req :: next.1, next.2)
          else ([req], .ok (acc ++ ps))
      else if status = 422 then ([req], .ok acc)
      else ([req], .error (.unexpectedStatus status))

/-- An earlier, fully successful page of the loop: status 200, postings
`ps`, `morePostingsAvailable` true. -/
def okPage (ps : List Posting) : UpstreamResult :=
  .response 200 (.parsed ps true)

/-- An exchange on which the loop's iteration fails: a transport error,
bad JSON under a 200, or a status that is neither 200 nor 422. -/
def isFatal : UpstreamResult → Bool
  | .transportError => true
  | .response status .malformed => status != 422
  | .response status (.parsed _ _) => status != 200 && status != 422

/-- The error a fatal exchange produces. -/
def fatalErr : UpstreamResult → FetchError
  | .transportError => .transport
  | .response status _ => if status = 200 then .badJSON else .unexpectedStatus status

/-- Number of iterations the loop performs on a given exchange sequence:
it continues past an exchange only when that exchange is a 200 page with
`morePostingsAvailable` true. -/
def continues : UpstreamResult → Bool
  | .response status (.parsed _ more) => status == 200 && more
  | _ => false

def iterCount : List UpstreamResult → Nat
  | [] => 1
  | r :: rs => if continues r then 1 + iterCount rs else 1

/-- A listing whose price string is a strictly negative decimal; all
other fields arbitrary but concrete. -/
def negPricePosting : Posting :=
  { id := "p1"
    text := "txt"
    productName := "Gadget"
    productID := 42
    categoryID := "CAT1"
    price := "-5.00"
    shippingCost := .finite 0
    brand := ⟨1, "Acme"⟩
    outlet := ⟨7, "Store"⟩ }

/-- A listing whose price string uses a decimal comma, which
`strconv.ParseFloat` rejects. -/
def badPricePosting : Posting :=
  { id := "p2"
    text := "txt"
    productName := "Widget"
    productID := 7
    categoryID := "CAT2"
    price := "12,99"
    shippingCost := .finite 0
    brand := ⟨2, "Foo"⟩
    outlet := ⟨9, "Shop"⟩ }

/-! ## Theorems -/

theorem string_data_append (s t : String) : (s ++ t).data = s.data ++ t.data := rfl

/-- Claim C2 (corrected): for every outcome of the two RNG draws
(`off ≤ 900` models `rand.Intn(901)`; the coin is arbitrary), the
jittered max-age lies within `[2700, 4500]` seconds, i.e. 3600 ± 900.
The spec's lower end of 3300 is refuted by `c2_maxage_counterexample`. -/
theorem randomMaxAge_bounds (off coin : Nat) (h : off ≤ 900) :
    2700 ≤ randomMaxAge off coin ∧ randomMaxAge off coin ≤ 4500 := by
  unfold randomMaxAge feedCacheMaxAge
  split <;> omega

theorem randomMaxAge_bounds_witness :
    2700 ≤ randomMaxAge 900 1 ∧ randomMaxAge 900 1 ≤ 4500 :=
  randomMaxAge_bounds 900 1 (by decide)

/-- Claim C2, counterexample to the literal interval: the RNG outcome
`off = 900` (attainable, `900 < 15*60 + 1`) with a subtracting coin
yields a max-age of 2700 seconds, strictly below the claimed lower end
3300. -/
theorem c2_maxage_counterexample :
    900 < 15 * 60 + 1 ∧ randomMaxAge 900 1 = 2700 ∧ randomMaxAge 900 1 < 3300 := by
  decide

/-- Claim C6: a request whose `brands` query parameter is missing or
empty (both surface as `""`) gets a 400 response with a descriptive
message — `"brands param is required"` when the format token is valid,
the earlier `"Invalid format"` otherwise — and the generator's
`BuildFeed` is never invoked, for every generator. -/
theorem missing_brands_400 (gen : List String → List String → List String → String → Except Unit Unit)
    (req : FeedRequest) (r1 r2 : Nat) (h : req.brands = "") :
    (handleGet gen req r1 r2).response
        = .clientError 400
            (if validFormat req.format then "brands param is required" else "Invalid format")
      ∧ (handleGet gen req r1 r2).generatorCall = none := by
  by_cases hv : validFormat req.format
  · simp [handleGet, hv, parseRequiredBrands, h]
  · simp [handleGet, hv]

theorem missing_brands_400_witness :
    (handleGet (fun _ _ _ _ => .ok ()) ⟨"rss", "", "1,2", "", ""⟩ 0 0).response
        = .clientError 400 "brands param is required"
      ∧ (handleGet (fun _ _ _ _ => .ok ()) ⟨"rss", "", "1,2", "", ""⟩ 0 0).generatorCall = none := by
  have h := missing_brands_400 (fun _ _ _ _ => .ok ()) ⟨"rss", "", "1,2", "", ""⟩ 0 0 rfl
  exact ⟨h.1.trans (by decide), h.2⟩

/-- Claim C9: for every posting (and every parsed storefront base URL),
the deep link is the base URL extended with exactly the four query
parameters `outletIds` (the outlet id via `strconv.Itoa`), `brands`
(the brand name), `categorieIds` (the category id) and `text` (the
product id via `strconv.Itoa`); the second conjunct renders a concrete
posting. -/
theorem buildWebURL_exact :
    (∀ (baseQuery : QueryPairs) (p : Posting),
      buildWebURL baseQuery p
        = baseQuery ++
            [("outletIds", toString p.outlet.id),
             ("brands", p.brand.name),
             ("categorieIds", p.categoryID),
             ("text", toString p.productID)])
    ∧ buildWebURL [] negPricePosting
        = [("outletIds", "7"), ("brands", "Acme"), ("categorieIds", "CAT1"), ("text", "42")] :=
  ⟨fun _ _ => rfl, by decide⟩

/-- Claim C10: `strings.Split("", ",")` is the one-element list holding
the empty string, and on any request with a valid format, non-empty
`brands` and `categorieIds`, but an absent/empty `outletIds` parameter,
exactly that singleton `[""]` is handed to the generator's `BuildFeed`. -/
theorem empty_outletIDs_singleton :
    parseOptionalOutletIDs "" = [""]
    ∧ ∀ (gen : List String → List String → List String → String → Except Unit Unit)
        (req : FeedRequest) (r1 r2 : Nat),
        validFormat req.format = true → req.brands ≠ "" → req.categorieIds ≠ "" →
        req.outletIds = "" →
        (handleGet gen req r1 r2).generatorCall
          = some (stringsSplit req.brands ',', stringsSplit req.categorieIds ',', [""], req.text) := by
  refine ⟨by decide, fun gen req r1 r2 hv hb hc ho => ?_⟩
  have hb' : parseRequiredBrands req.brands = .ok (stringsSplit req.brands ',') := by
    simp [parseRequiredBrands, hb]
  have hc' : parseRequiredCategoryIDs req.categorieIds = .ok (stringsSplit req.categorieIds ',') := by
    simp [parseRequiredCategoryIDs, hc]
  have ho' : parseOptionalOutletIDs req.outletIds = [""] := by
    rw [ho]; decide
  simp only [handleGet, hv, if_true, hb', hc', ho']
  cases gen (stringsSplit req.brands ',') (stringsSplit req.categorieIds ',') [""] req.text <;> rfl

theorem empty_outletIDs_singleton_witness :
    (handleGet (fun _ _ _ _ => .ok ()) ⟨"rss", "a,b", "1", "", "kw"⟩ 0 0).generatorCall
      = some (["a", "b"], ["1"], [""], "kw") := by
  have h := empty_outletIDs_singleton.2 (fun _ _ _ _ => .ok ())
    ⟨"rss", "a,b", "1", "", "kw"⟩ 0 0 (by decide) (by decide) (by decide) rfl
  exact h.trans (by decide)

/-- Claim C5: for every product name, parsed (finite) price and shipping
cost, the item title is
`"<name> - <price>€ (Versand: <shipping>)"` with German two-decimal
formatting, where the shipping part is the literal `"kostenlos"` exactly
when the shipping cost equals 0.0 (second conjunct: a German-formatted
currency never collides with that literal) and German-formatted currency
otherwise; in particular price `"19.99"` parses to 19.99 and, with
shipping 0.0 and name `"ProductX"`, the title is
`"ProductX - 19,99€ (Versand: kostenlos)"`. -/
theorem formatItemTitle_spec :
    (∀ (name : String) (p sh : ℚ),
        formatItemTitle name (.finite p) (.finite sh)
          = name ++ " - " ++ germanFixed2 p ++ "€ (Versand: "
              ++ (if sh = 0 then "kostenlos" else germanFixed2 sh ++ "€") ++ ")")
    ∧ (∀ sh : ℚ, germanFixed2 sh ++ "€" ≠ "kostenlos")
    ∧ parseFloatGo "19.99" = some (.finite (1999 / 100))
    ∧ formatItemTitle "ProductX" (.finite (1999 / 100)) (.finite 0)
        = "ProductX - 19,99€ (Versand: kostenlos)" := by
  refine ⟨fun name p sh => ?_, fun sh h => ?_, by with_unfolding_all rfl,
    by with_unfolding_all rfl⟩
  · by_cases hsh : sh = 0 <;>
      simp [formatItemTitle, isZeroF, formatF2, hsh]
  · have hd := congrArg String.data h
    rw [string_data_append] at hd
    have h2 : ("€".data : List Char) = ['€'] := rfl
    rw [h2] at hd
    have hlast := congrArg List.getLast? hd
    rw [List.getLast?_concat] at hlast
    exact absurd hlast (by decide)

theorem formatItemTitle_spec_witness :
    formatItemTitle "A" (.finite 1) (.finite 1) = "A - 1,00€ (Versand: 1,00€)" :=
  (formatItemTitle_spec.1 "A" 1 1).trans (by with_unfolding_all rfl)

/-- Claim C1 (amended): `posting.ToFeedItem` — with the configured,
parseable storefront base URL — fails if and only if the price string is
not accepted by `strconv.ParseFloat` (invalid floating-point literal or
magnitude overflow); the sign plays no role, so a price that parses as a
negative decimal does NOT cause a failure (see
`c1_negative_price_counterexample`).  The second conjunct lifts the
equivalence to `BuildFeed`'s item loop: the whole transform fails iff
some record's price fails to parse. -/
theorem toFeedItem_fails_iff_price_unparseable :
    (∀ (baseQuery : QueryPairs) (p : Posting),
        toFeedItem baseQuery p = none ↔ parseFloatGo p.price = none)
    ∧ (∀ (baseQuery : QueryPairs) (ps : List Posting),
        toFeedItems baseQuery ps = none ↔ ∃ p ∈ ps, parseFloatGo p.price = none) := by
  have hitem : ∀ (baseQuery : QueryPairs) (p : Posting),
      toFeedItem baseQuery p = none ↔ parseFloatGo p.price = none := by
    intro baseQuery p
    cases h : parseFloatGo p.price <;> simp [toFeedItem, h]
  refine ⟨hitem, fun baseQuery ps => ?_⟩
  induction ps with
  | nil => simp [toFeedItems]
  | cons p ps ih =>
    cases h : toFeedItem baseQuery p with
    | none =>
      refine iff_of_true (by simp [toFeedItems, h]) ?_
      exact ⟨p, List.mem_cons_self p ps, (hitem _ _).mp h⟩
    | some item =>
      have hp : ¬ parseFloatGo p.price = none := fun hn => by
        have hc := (hitem baseQuery p).mpr hn
        rw [h] at hc
        cases hc
      simp [toFeedItems, h, ih, hp]

theorem toFeedItem_fails_iff_price_unparseable_witness :
    toFeedItem [] badPricePosting = none :=
  (toFeedItem_fails_iff_price_unparseable.1 [] badPricePosting).mpr
    (by with_unfolding_all rfl)

/-- Claim C1, counterexample to the non-negativity requirement: the
price string `"-5.00"` parses as the strictly negative decimal −5, and
`ToFeedItem` on a record carrying it succeeds (returning a feed item)
instead of failing. -/
theorem c1_negative_price_counterexample :
    parseFloatGo "-5.00" = some (.finite (-5))
    ∧ (-5 : ℚ) < 0
    ∧ toFeedItem [] negPricePosting
        = some { title := "Gadget - -5,00€ (Versand: kostenlos)"
                 link := [("outletIds", "7"), ("brands", "Acme"),
                          ("categorieIds", "CAT1"), ("text", "42")]
                 id := "p1"
                 content := "txt" } := by
  refine ⟨by with_unfolding_all rfl, by norm_num, by with_unfolding_all rfl⟩

theorem map_range_one {A : Type} (f : Nat → A) : (List.range 1).map f = [f 0] := by
  simp [List.range_succ]

/-- Running the loop on fully successful more-pages exchanges first:
the result is that of the remaining loop with the offset advanced by
`perPage` per page and the pages' postings appended to the accumulator. -/
theorem fetchLoop_okPages (b c : List String) (k : String)
    (pages : List (List Posting)) (rs : List UpstreamResult) :
    ∀ off acc, (fetchLoop b c k (pages.map okPage ++ rs) off acc).2
      = (fetchLoop b c k rs (off + perPage * pages.length) (acc ++ pages.flatten)).2 := by
  induction pages with
  | nil => intro off acc; simp
  | cons ps pages ih =>
    intro off acc
    have step : (fetchLoop b c k (okPage ps :: (pages.map okPage ++ rs)) off acc).2
        = (fetchLoop b c k (pages.map okPage ++ rs) (off + perPage) (acc ++ ps)).2 := by
      simp [fetchLoop, okPage]
    rw [List.map_cons, List.cons_append, step, ih]
    have harith : off + perPage + perPage * pages.length
        = off + perPage * (ps :: pages).length := by
      simp [List.length_cons, Nat.mul_succ]
      ring
    rw [harith, List.append_assoc, List.flatten_cons]

/-- The request trace of the loop: one request per iteration, with the
offset advancing by `perPage` each time. -/
theorem fetchLoop_requests (b c : List String) (k : String) (rs : List UpstreamResult) :
    ∀ off acc, (fetchLoop b c k rs off acc).1
      = (List.range (iterCount rs)).map (fun i => buildRequest perPage (off + perPage * i) b c k) := by
  induction rs with
  | nil => intro off acc; simp [fetchLoop, iterCount, map_range_one]
  | cons r rs ih =>
    intro off acc
    match r with
    | .transportError => simp [fetchLoop, iterCount, continues, map_range_one]
    | .response status body =>
      match body with
      | .malformed =>
        by_cases h200 : status = 200 <;>
          by_cases h422 : status = 422 <;>
            simp_all [fetchLoop, iterCount, continues, map_range_one]
      | .parsed ps more =>
        by_cases h200 : status = 200
        · subst h200
          cases more with
          | false => simp [fetchLoop, iterCount, continues, map_range_one]
          | true =>
            have hstep : (fetchLoop b c k (.response 200 (.parsed ps true) :: rs) off acc).1
                = buildRequest perPage off b c k
                    :: (fetchLoop b c k rs (off + perPage) (acc ++ ps)).1 := by
              simp [fetchLoop]
            have hcount : iterCount (.response 200 (.parsed ps true) :: rs)
                = iterCount rs + 1 := by
              simp [iterCount, continues, Nat.add_comm]
            rw [hstep, ih, hcount, List.range_succ_eq_map, List.map_cons, List.map_map]
            congr 1
            apply List.map_congr_left
            intro i _
            have h1 : off + perPage + perPage * i = off + perPage * (i + 1) := by ring
            simp [Function.comp, h1, Nat.succ_eq_add_one]
        · by_cases h422 : status = 422 <;>
            simp_all [fetchLoop, iterCount, continues, map_range_one]

/-- Claim C3: starting from any run of fully successful pages, an
upstream 422 (whatever its body) makes the loop return exactly the
postings accumulated from the earlier pages, in order, with no error —
whatever would have come after; in particular (second conjunct) a 422
after one successful page yields exactly that one page's postings. -/
theorem fetch_422_returns_accumulated (b c : List String) (k : String)
    (pages : List (List Posting)) (body : PageBody) (rest : List UpstreamResult) :
    (fetchLoop b c k (pages.map okPage ++ .response 422 body :: rest) 0 []).2
        = .ok pages.flatten
      ∧ ∀ ps : List Posting,
        (fetchLoop b c k (okPage ps :: .response 422 body :: rest) 0 []).2 = .ok ps := by
  constructor
  · rw [fetchLoop_okPages]
    simp [fetchLoop]
  · intro ps
    have h := fetchLoop_okPages b c k [ps] (.response 422 body :: rest) 0 []
    simpa [fetchLoop] using h

/-- Claim C4: if, after any run of fully successful pages, an iteration
fails — transport error, malformed JSON under a 200, or a status that is
neither 200 nor 422 — the fetch returns an error (carrying no postings:
everything accumulated so far is discarded, no partial feed). -/
theorem fetch_failure_discards_all (b c : List String) (k : String)
    (pages : List (List Posting)) (r : UpstreamResult) (rest : List UpstreamResult)
    (h : isFatal r = true) :
    (fetchLoop b c k (pages.map okPage ++ r :: rest) 0 []).2 = .error (fatalErr r) := by
  rw [fetchLoop_okPages]
  match r with
  | .transportError => simp [fetchLoop, fatalErr]
  | .response status .malformed =>
    have h422 : status ≠ 422 := by simpa [isFatal] using h
    by_cases h200 : status = 200 <;> simp_all [fetchLoop, fatalErr]
  | .response status (.parsed ps more) =>
    have hs : status ≠ 200 ∧ status ≠ 422 := by simpa [isFatal] using h
    simp [fetchLoop, fatalErr, hs.1, hs.2]

theorem fetch_failure_discards_all_witness :
    (fetchLoop ["b"] ["c"] "" [okPage [negPricePosting], .response 500 .malformed] 0 []).2
      = .error (.unexpectedStatus 500) := by
  have h := fetch_failure_discards_all ["b"] ["c"] "" [[negPricePosting]]
    (.response 500 .malformed) [] (by decide)
  simpa [fatalErr] using h

/-- Claim C7: for any bounded run of fully successful more-pages
exchanges followed by a page with `morePostingsAvailable = false`, the
loop terminates there — the result does not depend on anything that
would come later (`rest` is arbitrary) — and returns the pages
concatenated in request order with the records of each page kept in
response order, never re-sorted. -/
theorem fetch_terminates_in_upstream_order (b c : List String) (k : String)
    (pages : List (List Posting)) (lastPage : List Posting) (rest : List UpstreamResult) :
    (fetchLoop b c k (pages.map okPage ++ .response 200 (.parsed lastPage false) :: rest) 0 []).2
      = .ok (pages.flatten ++ lastPage) := by
  rw [fetchLoop_okPages]
  simp [fetchLoop]

/-- Claim C8: on every exchange sequence, iteration `i` of the loop
(counting from 0) issues a request carrying exactly the five query
parameters `limit=100`, `offset=100*i`, the brand filters joined by
commas, the category filters joined by commas (under the upstream's
`categorieIds` spelling) and the keyword, plus the fixed user-agent
header. -/
theorem fetch_request_params (b c : List String) (k : String) (rs : List UpstreamResult) :
    (fetchLoop b c k rs 0 []).1
      = (List.range (iterCount rs)).map (fun i =>
          { query := [("limit", "100"),
                      ("offset", toString (100 * i)),
                      ("brands", stringsJoin b ","),
                      ("categorieIds", stringsJoin c ","),
                      ("text", k)],
            userAgent := userAgent }) := by
  rw [fetchLoop_requests]
  refine List.map_congr_left fun i _ => ?_
  simp only [buildRequest, perPage, Nat.zero_add]
  rfl

end GrubeFund
